import Mathlib

/-!
Verification of `.github/scripts/screenshot.js` from `tanay-787/portfolio-content`.

The script keeps preview screenshots of project folders up to date: it loads a
JSON ledger mapping project names to ISO timestamp strings, discovers project
folders holding a showcase image, fetches each project's homepage URL and
latest commit date from a remote API, decides per project whether to capture a
fresh screenshot, updates the ledger in memory, and writes the ledger once at
the end.

External effects (filesystem reads, the GraphQL call, the headless browser,
and `new Date` parsing) are modelled as explicit data / environment functions;
the control flow of the script is translated statement by statement.
-/

namespace Portfolio

/-! ## Timestamp ledger (`screenshot-timestamps.json` contents)

The JS code stores the ledger as a plain object `{ name: isoString }`.
We embed it as an association list; `lookup` models `timestamps[project]`
(reading, `undefined` becomes `none`) and `setKey` models
`timestamps[project] = value` (overwrite the existing key or add it). -/

abbrev Ledger := List (String × String)

def lookup : Ledger → String → Option String
  | [], _ => none
  | (k, v) :: rest, key => if k = key then some v else lookup rest key

def setKey : Ledger → String → String → Ledger
  | [], key, val => [(key, val)]
  | (k, v) :: rest, key, val =>
    if k = key then (k, val) :: rest else (k, v) :: setKey rest key val

/-! ## State store: `readTimestamps` (screenshot.js lines 34-43)

`readTimestamps` checks `fs.existsSync`, then `JSON.parse`s the file inside a
`try`, returning `{}` when the file is absent or the parse throws.  The file
contents are modelled as `Option String` (`none` = file absent) and
`JSON.parse` as a function `parse : String → Option Ledger`
(`none` = the parse throws). -/

def readTimestamps (parse : String → Option Ledger) (file : Option String) : Ledger :=
  match file with
  | none => []
  | some contents =>
    match parse contents with
    | some ledger => ledger
    | none => []

/-! ## Project discovery: `getProjectFolders` (screenshot.js lines 59-70)

The filesystem root is modelled as the list of `readdirSync(ROOT_DIR,
{withFileTypes:true})` entries plus, per entry name, whether
`<name>/assets` exists and which file names `readdirSync` of it returns. -/

structure DirEntry where
  name : String
  isDirectory : Bool

structure RootFs where
  entries : List DirEntry
  assetsExists : String → Bool
  assetsFiles : String → List String

/-- JS `name.startsWith('.')`: the name's first character is `'.'`. -/
def startsWithDot (name : String) : Bool :=
  match name.data with
  | [] => false
  | c :: _ => c = '.'

def getProjectFolders (rfs : RootFs) : List String :=
  ((rfs.entries.filter fun e => e.isDirectory && !(startsWithDot e.name)).map
      (fun e => e.name)).filter fun name =>
    if !(rfs.assetsExists name) then false
    else (rfs.assetsFiles name).any fun f => f = "Showcase.png" || f = "Showcase.webp"

/-! ## Repository metadata client: `getRepoInfo` (screenshot.js lines 100-112)

The GraphQL response shape is
`{ repository: { homepageUrl, defaultBranchRef: { target: { committedDate } } } }`
where every level may be null/absent.  JS string fields can hold the empty
string, which is falsy; `repo?.homepageUrl || null` therefore coerces both an
absent field and an empty string to null.  `jsOrNull` is `x || null` on a
JS string-or-nullish value. -/

structure CommitTarget where
  committedDate : Option String

structure BranchRef where
  target : Option CommitTarget

structure RepoNode where
  homepageUrl : Option String
  defaultBranchRef : Option BranchRef

structure ApiResult where
  repository : Option RepoNode

structure RepoInfo where
  homepageUrl : Option String
  committedDate : Option String

def jsOrNull : Option String → Option String
  | none => none
  | some s => if s.isEmpty then none else some s

def getRepoInfo (result : ApiResult) : RepoInfo :=
  { homepageUrl := jsOrNull (result.repository.bind fun r => r.homepageUrl)
    committedDate :=
      jsOrNull (result.repository.bind fun r =>
        r.defaultBranchRef.bind fun b => b.target.bind fun t => t.committedDate) }

/-! ## Orchestrator: `main` (screenshot.js lines 154-216)

The per-run environment bundles the external effects the loop body touches:

* `fetch p` models `await getRepoInfo(REPO_OWNER, p)` — the already-coerced
  `{homepageUrl, committedDate}` pair, or `.error` when the call throws;
* `dateVal s` models `new Date(s).getTime()`: `none` is an Invalid Date
  (every comparison involving it is false in JS), `some n` the instant;
* `captureOk url out` tells whether `await takeScreenshot(url, out)` returns
  normally (`false` = it throws; the invocation still happened);
* `showcase p` models `getShowcasePath(p)`, the resolved showcase image path.

Two facts about the real environment are recorded as fields: `new Date("")`
is an Invalid Date, and `getRepoInfo` never returns an empty string for
either field (it coerces falsy values to null — proved below as
`getRepoInfo_never_empty`). -/

structure Env where
  fetch : String → Except String RepoInfo
  dateVal : String → Option Nat
  captureOk : String → String → Bool
  showcase : String → String
  dateVal_empty : dateVal "" = none
  fetch_coerced : ∀ p info, fetch p = .ok info →
    info.homepageUrl ≠ some "" ∧ info.committedDate ≠ some ""

/-- JS falsiness of a string-or-nullish value: null/undefined and `""` are
falsy, every other string truthy.  Used for `!committedDate`,
`!homepageUrl` and the `lastScreenshot &&` guard. -/
def falsy : Option String → Bool
  | none => true
  | some s => s.isEmpty

/-- `new Date(a) <= new Date(b)`: false whenever either date is invalid. -/
def jsLe (env : Env) (a b : String) : Bool :=
  match env.dateVal a, env.dateVal b with
  | some x, some y => decide (x ≤ y)
  | _, _ => false

/-- Line 180: `lastScreenshot && new Date(committedDate) <= new Date(lastScreenshot)`. -/
def upToDate (env : Env) (ledger : Ledger) (project cd : String) : Bool :=
  !falsy (lookup ledger project) &&
    jsLe env cd ((lookup ledger project).getD "")

/-- Result of (part of) a run: the in-memory ledger, the list of
`takeScreenshot(url, outputPath)` invocations in order, and the two
counters `screenshotCount` / `timestampOnlyCount`. -/
structure StepResult where
  ledger : Ledger
  captures : List (String × String)
  screenshots : Nat
  timestampOnly : Nat
  deriving DecidableEq

/-- The loop body after `getRepoInfo` returned (screenshot.js lines
173-201): skip on falsy `committedDate`, skip when up to date, record the
date without a screenshot on falsy `homepageUrl`, otherwise invoke the
capture and record the date only if it succeeds (a throwing
`takeScreenshot` is caught by the surrounding `try`, ledger untouched). -/
def processInfo (env : Env) (ledger : Ledger) (project : String) (info : RepoInfo) :
    StepResult :=
  if falsy info.committedDate then ⟨ledger, [], 0, 0⟩
  else
    let cd := info.committedDate.getD ""
    if upToDate env ledger project cd then ⟨ledger, [], 0, 0⟩
    else if falsy info.homepageUrl then ⟨setKey ledger project cd, [], 0, 1⟩
    else
      let url := info.homepageUrl.getD ""
      let out := env.showcase project
      if env.captureOk url out then ⟨setKey ledger project cd, [(url, out)], 1, 0⟩
      else ⟨ledger, [(url, out)], 0, 0⟩

/-- One iteration of the `for (const project of projects)` loop
(screenshot.js lines 167-205), `try`/`catch` included: a `.error` from
`fetch` leaves the ledger untouched. -/
def processProject (env : Env) (ledger : Ledger) (project : String) : StepResult :=
  match env.fetch project with
  | .error _ => ⟨ledger, [], 0, 0⟩
  | .ok info => processInfo env ledger project info

/-- The whole loop over the discovered projects, threading the in-memory
ledger and accumulating capture invocations and counters. -/
def runProjects (env : Env) (projects : List String) (ledger : Ledger) : StepResult :=
  match projects with
  | [] => ⟨ledger, [], 0, 0⟩
  | p :: ps =>
    let r := processProject env ledger p
    let rest := runProjects env ps r.ledger
    ⟨rest.ledger, r.captures ++ rest.captures,
      r.screenshots + rest.screenshots, r.timestampOnly + rest.timestampOnly⟩

/-- `true` when the committed date fetched for `p` (if any) parses to a
valid instant.  Used to state the well-formed-metadata hypothesis of the
idempotence theorem decidably. -/
def fetchDateParses (env : Env) (p : String) : Bool :=
  match env.fetch p with
  | .error _ => true
  | .ok info =>
    match info.committedDate with
    | none => true
    | some cd => (env.dateVal cd).isSome

/-! ## Ledger lemmas -/

theorem lookup_setKey_self (l : Ledger) (k v : String) :
    lookup (setKey l k v) k = some v := by
  induction l with
  | nil => simp [setKey, lookup]
  | cons head rest ih =>
    obtain ⟨k', v'⟩ := head
    by_cases h : k' = k <;> simp [setKey, lookup, h, ih]

theorem lookup_setKey_ne (l : Ledger) (k v q : String) (hne : k ≠ q) :
    lookup (setKey l k v) q = lookup l q := by
  induction l with
  | nil => simp [setKey, lookup, hne]
  | cons head rest ih =>
    obtain ⟨k', v'⟩ := head
    by_cases h : k' = k
    · subst h
      simp [setKey, lookup, hne]
    · simp [setKey, lookup, h, ih]

theorem setKey_lookup_eq (l : Ledger) (k v : String) (h : lookup l k = some v) :
    setKey l k v = l := by
  induction l with
  | nil => simp [lookup] at h
  | cons head rest ih =>
    obtain ⟨k', v'⟩ := head
    by_cases hk : k' = k
    · subst hk
      simp [lookup] at h
      simp [setKey, h]
    · simp [lookup, hk] at h
      simp [setKey, hk, ih h]

/-! ## Unfolding and frame lemmas for the loop body -/

theorem processProject_error (env : Env) (l : Ledger) (p e : String)
    (hf : env.fetch p = .error e) : processProject env l p = ⟨l, [], 0, 0⟩ := by
  unfold processProject
  rw [hf]

theorem processProject_ok (env : Env) (l : Ledger) (p : String) (info : RepoInfo)
    (hf : env.fetch p = .ok info) :
    processProject env l p = processInfo env l p info := by
  unfold processProject
  rw [hf]

/-- Processing project `p` never touches any other ledger key. -/
theorem processProject_frame (env : Env) (l : Ledger) (p q : String) (hne : p ≠ q) :
    lookup (processProject env l p).ledger q = lookup l q := by
  cases hf : env.fetch p with
  | error e => rw [processProject_error env l p e hf]
  | ok info =>
    rw [processProject_ok env l p info hf]
    unfold processInfo
    by_cases h₁ : falsy info.committedDate
    · simp [h₁]
    · by_cases h₂ : upToDate env l p (info.committedDate.getD "")
      · simp [h₁, h₂]
      · by_cases h₃ : falsy info.homepageUrl
        · simp [h₁, h₂, h₃, lookup_setKey_ne _ _ _ _ hne]
        · by_cases h₄ :
            env.captureOk (info.homepageUrl.getD "") (env.showcase p) <;>
              simp [h₁, h₂, h₃, h₄, lookup_setKey_ne _ _ _ _ hne]

/-- A run never touches the ledger key of a project that was not discovered. -/
theorem runProjects_frame (env : Env) (projects : List String) (l : Ledger)
    (q : String) (hq : q ∉ projects) :
    lookup (runProjects env projects l).ledger q = lookup l q := by
  induction projects generalizing l with
  | nil => rfl
  | cons p ps ih =>
    have hpq : p ≠ q := fun h => hq (h ▸ List.mem_cons_self p ps)
    have hq' : q ∉ ps := fun h => hq (List.mem_cons_of_mem _ h)
    simp only [runProjects]
    rw [ih _ hq', processProject_frame env l p q hpq]

/-! ## Small facts used across the claim theorems -/

theorem falsy_some_iff (s : String) : falsy (some s) = true ↔ s = "" := by
  simp [falsy, String.isEmpty_iff]

/-- A fetched committed date that parses to an instant is truthy
(`new Date("")` is invalid, so `dateVal s = some t` forces `s ≠ ""`). -/
theorem falsy_of_dateVal (env : Env) (s : String) (t : Nat)
    (h : env.dateVal s = some t) : falsy (some s) = false := by
  rw [Bool.eq_false_iff]
  intro hfal
  rw [falsy_some_iff] at hfal
  subst hfal
  rw [env.dateVal_empty] at h
  exact Option.noConfusion h

/-- The up-to-date guard fails when the claim's "newer" condition holds. -/
theorem upToDate_false_of_newer (env : Env) (l : Ledger) (p cd : String)
    (hnew : lookup l p = none ∨
      ∃ last tl tc, lookup l p = some last ∧ env.dateVal last = some tl ∧
        env.dateVal cd = some tc ∧ tl < tc) :
    upToDate env l p cd = false := by
  rcases hnew with hnone | ⟨last, tl, tc, hlast, htl, htc, hlt⟩
  · simp [upToDate, hnone, falsy]
  · simp only [upToDate, hlast, Option.getD_some, Bool.and_eq_false_iff]
    right
    simp [jsLe, htl, htc, Nat.not_le.mpr hlt]

theorem falsy_some_false_of_ne (s : String) (h : s ≠ "") : falsy (some s) = false := by
  rw [Bool.eq_false_iff]
  exact fun hf => h ((falsy_some_iff s).mp hf)

/-- A fully concrete environment used to witness the claim theorems:
every project fetches homepage `https://example.com` with commit date
`2024-06-01T00:00:00Z`, the two ISO dates in play parse to the instants
100 and 200, and every capture succeeds. -/
def envW : Env where
  fetch := fun _ => .ok ⟨some "https://example.com", some "2024-06-01T00:00:00Z"⟩
  dateVal := fun s =>
    if s = "2024-01-01T00:00:00Z" then some 100
    else if s = "2024-06-01T00:00:00Z" then some 200
    else none
  captureOk := fun _ _ => true
  showcase := fun p => p ++ "/assets/Showcase.png"
  dateVal_empty := by decide
  fetch_coerced := by
    intro p info h
    injection h with h
    subst h
    exact ⟨by decide, by decide⟩

/-- C1: a discovered project whose ledger entry is strictly older than the
fetched commit timestamp (or absent), with a non-null fetched homepage URL,
gets exactly one capture invocation with that URL and the resolved showcase
path; if the capture succeeds its ledger entry is set to the fetched
commit timestamp. -/
theorem capture_invoked_once_when_newer (env : Env) (l : Ledger) (p : String)
    (info : RepoInfo) (cd url : String)
    (hf : env.fetch p = .ok info)
    (hcd : info.committedDate = some cd)
    (hurl : info.homepageUrl = some url)
    (hnew : lookup l p = none ∨
      ∃ last tl tc, lookup l p = some last ∧ env.dateVal last = some tl ∧
        env.dateVal cd = some tc ∧ tl < tc) :
    (processProject env l p).captures = [(url, env.showcase p)] ∧
      (env.captureOk url (env.showcase p) = true →
        (processProject env l p).ledger = setKey l p cd) := by
  have hcoerce := env.fetch_coerced p info hf
  have hcdf : falsy info.committedDate = false := by
    rw [hcd]
    exact falsy_some_false_of_ne cd fun h => hcoerce.2 (by rw [hcd, h])
  have hurlf : falsy (some url) = false :=
    falsy_some_false_of_ne url fun h => hcoerce.1 (by rw [hurl, h])
  have hup := upToDate_false_of_newer env l p cd hnew
  rw [processProject_ok env l p info hf]
  unfold processInfo
  rw [hcdf]
  simp only [Bool.false_eq_true, if_false, hcd, Option.getD_some, hup, hurl, hurlf]
  by_cases hok : env.captureOk url (env.showcase p) <;> simp [hok, hurlf]

/-- Witness for `capture_invoked_once_when_newer`: concrete ledger entry
100 < fetched instant 200, homepage configured, capture succeeds. -/
theorem capture_invoked_once_when_newer_witness :
    (processProject envW [("proj-a", "2024-01-01T00:00:00Z")] "proj-a").captures =
      [("https://example.com", envW.showcase "proj-a")] ∧
    (processProject envW [("proj-a", "2024-01-01T00:00:00Z")] "proj-a").ledger =
      setKey [("proj-a", "2024-01-01T00:00:00Z")] "proj-a" "2024-06-01T00:00:00Z" := by
  have h := capture_invoked_once_when_newer envW
    [("proj-a", "2024-01-01T00:00:00Z")] "proj-a"
    ⟨some "https://example.com", some "2024-06-01T00:00:00Z"⟩
    "2024-06-01T00:00:00Z" "https://example.com" rfl rfl rfl
    (Or.inr ⟨"2024-01-01T00:00:00Z", 100, 200, by decide, by decide, by decide,
      by decide⟩)
  exact ⟨h.1, h.2 (by decide)⟩

/-- C2: a project whose ledger entry instant is ≥ the fetched commit
instant is left alone: no capture, no counter, ledger unchanged. -/
theorem up_to_date_project_untouched (env : Env) (l : Ledger) (p : String)
    (info : RepoInfo) (cd last : String) (tc tl : Nat)
    (hf : env.fetch p = .ok info)
    (hcd : info.committedDate = some cd)
    (hlast : lookup l p = some last)
    (htc : env.dateVal cd = some tc)
    (htl : env.dateVal last = some tl)
    (hge : tc ≤ tl) :
    processProject env l p = ⟨l, [], 0, 0⟩ := by
  have hcdf : falsy info.committedDate = false := by
    rw [hcd]; exact falsy_of_dateVal env cd tc htc
  have hlastf : falsy (some last) = false := falsy_of_dateVal env last tl htl
  have hup : upToDate env l p cd = true := by
    simp [upToDate, hlast, hlastf, jsLe, htc, htl, hge]
  rw [processProject_ok env l p info hf]
  unfold processInfo
  rw [hcdf]
  simp [hcd, hup]

/-- Witness for `up_to_date_project_untouched`: entry instant 200 equals
the fetched commit instant 200, so the step is a no-op. -/
theorem up_to_date_project_untouched_witness :
    processProject envW [("proj-a", "2024-06-01T00:00:00Z")] "proj-a" =
      ⟨[("proj-a", "2024-06-01T00:00:00Z")], [], 0, 0⟩ :=
  up_to_date_project_untouched envW [("proj-a", "2024-06-01T00:00:00Z")] "proj-a"
    ⟨some "https://example.com", some "2024-06-01T00:00:00Z"⟩
    "2024-06-01T00:00:00Z" "2024-06-01T00:00:00Z" 200 200
    rfl rfl (by decide) (by decide) (by decide) (by decide)

/-- C4: a null fetched `committedDate` means no ledger mutation and no
capture for that project, whatever the homepage URL is. -/
theorem null_commit_date_skipped (env : Env) (l : Ledger) (p : String)
    (info : RepoInfo)
    (hf : env.fetch p = .ok info)
    (hcd : info.committedDate = none) :
    processProject env l p = ⟨l, [], 0, 0⟩ := by
  rw [processProject_ok env l p info hf]
  unfold processInfo
  rw [hcd]
  simp [falsy]

/-- A witness environment whose fetch reports a homepage but no commit
date. -/
def envNoDate : Env where
  fetch := fun _ => .ok ⟨some "https://example.com", none⟩
  dateVal := fun _ => none
  captureOk := fun _ _ => true
  showcase := fun p => p ++ "/assets/Showcase.png"
  dateVal_empty := rfl
  fetch_coerced := by
    intro p info h
    injection h with h
    subst h
    exact ⟨by decide, by decide⟩

/-- Witness for `null_commit_date_skipped`. -/
theorem null_commit_date_skipped_witness :
    processProject envNoDate [("proj-a", "2024-01-01T00:00:00Z")] "proj-a" =
      ⟨[("proj-a", "2024-01-01T00:00:00Z")], [], 0, 0⟩ :=
  null_commit_date_skipped envNoDate [("proj-a", "2024-01-01T00:00:00Z")] "proj-a"
    ⟨some "https://example.com", none⟩ rfl rfl

/-- C5: a non-null fetched commit date that is newer than the ledger entry
(or has no entry), with a null homepage URL, updates the ledger entry to
the fetched date and invokes no capture (a timestamp-only update). -/
theorem null_homepage_timestamp_only (env : Env) (l : Ledger) (p : String)
    (info : RepoInfo) (cd : String)
    (hf : env.fetch p = .ok info)
    (hcd : info.committedDate = some cd)
    (hurl : info.homepageUrl = none)
    (hnew : lookup l p = none ∨
      ∃ last tl tc, lookup l p = some last ∧ env.dateVal last = some tl ∧
        env.dateVal cd = some tc ∧ tl < tc) :
    processProject env l p = ⟨setKey l p cd, [], 0, 1⟩ := by
  have hcoerce := env.fetch_coerced p info hf
  have hcdf : falsy info.committedDate = false := by
    rw [hcd]
    exact falsy_some_false_of_ne cd fun h => hcoerce.2 (by rw [hcd, h])
  have hup := upToDate_false_of_newer env l p cd hnew
  rw [processProject_ok env l p info hf]
  unfold processInfo
  rw [hcdf]
  simp [hcd, hup, hurl, falsy]

/-- A witness environment whose fetch reports a fresh commit date but no
homepage. -/
def envNoHome : Env where
  fetch := fun _ => .ok ⟨none, some "2024-06-01T00:00:00Z"⟩
  dateVal := fun s =>
    if s = "2024-01-01T00:00:00Z" then some 100
    else if s = "2024-06-01T00:00:00Z" then some 200
    else none
  captureOk := fun _ _ => true
  showcase := fun p => p ++ "/assets/Showcase.png"
  dateVal_empty := by decide
  fetch_coerced := by
    intro p info h
    injection h with h
    subst h
    exact ⟨by decide, by decide⟩

/-- Witness for `null_homepage_timestamp_only`. -/
theorem null_homepage_timestamp_only_witness :
    processProject envNoHome [("proj-a", "2024-01-01T00:00:00Z")] "proj-a" =
      ⟨setKey [("proj-a", "2024-01-01T00:00:00Z")] "proj-a" "2024-06-01T00:00:00Z",
        [], 0, 1⟩ :=
  null_homepage_timestamp_only envNoHome
    [("proj-a", "2024-01-01T00:00:00Z")] "proj-a"
    ⟨none, some "2024-06-01T00:00:00Z"⟩ "2024-06-01T00:00:00Z" rfl rfl rfl
    (Or.inr ⟨"2024-01-01T00:00:00Z", 100, 200, by decide, by decide, by decide,
      by decide⟩)

/-- C6: when the fetch throws, or the capture is reached and throws, the
project's ledger state is exactly what it was, the loop goes on to the
remaining projects (the run on `p :: ps` continues as the run on `ps`
from the untouched ledger), and the run completes normally. -/
theorem error_leaves_ledger_and_run_continues (env : Env) (l : Ledger)
    (p : String) (ps : List String)
    (herr : (∃ e, env.fetch p = .error e) ∨
      (∃ info, env.fetch p = .ok info ∧ falsy info.committedDate = false ∧
        upToDate env l p (info.committedDate.getD "") = false ∧
        falsy info.homepageUrl = false ∧
        env.captureOk (info.homepageUrl.getD "") (env.showcase p) = false)) :
    (processProject env l p).ledger = l ∧
      (runProjects env (p :: ps) l).ledger = (runProjects env ps l).ledger ∧
      (runProjects env (p :: ps) l).captures =
        (processProject env l p).captures ++ (runProjects env ps l).captures := by
  have hled : (processProject env l p).ledger = l := by
    rcases herr with ⟨e, hf⟩ | ⟨info, hf, h₁, h₂, h₃, h₄⟩
    · rw [processProject_error env l p e hf]
    · rw [processProject_ok env l p info hf]
      unfold processInfo
      rw [h₁]
      simp [h₂, h₃, h₄]
  refine ⟨hled, ?_, ?_⟩ <;> simp only [runProjects, hled]

/-- A witness environment whose capture always throws. -/
def envCapFail : Env where
  fetch := fun _ => .ok ⟨some "https://example.com", some "2024-06-01T00:00:00Z"⟩
  dateVal := fun s => if s = "2024-06-01T00:00:00Z" then some 200 else none
  captureOk := fun _ _ => false
  showcase := fun p => p ++ "/assets/Showcase.png"
  dateVal_empty := by decide
  fetch_coerced := by
    intro p info h
    injection h with h
    subst h
    exact ⟨by decide, by decide⟩

/-- Witness for `error_leaves_ledger_and_run_continues`: a failing capture
on project `proj-a` leaves the empty ledger empty while `proj-b` is still
processed. -/
theorem error_leaves_ledger_and_run_continues_witness :
    (processProject envCapFail [] "proj-a").ledger = [] ∧
      (runProjects envCapFail ["proj-a", "proj-b"] []).ledger =
        (runProjects envCapFail ["proj-b"] []).ledger ∧
      (runProjects envCapFail ["proj-a", "proj-b"] []).captures =
        (processProject envCapFail [] "proj-a").captures ++
          (runProjects envCapFail ["proj-b"] []).captures :=
  error_leaves_ledger_and_run_continues envCapFail [] "proj-a" ["proj-b"]
    (Or.inr ⟨⟨some "https://example.com", some "2024-06-01T00:00:00Z"⟩, rfl,
      by decide, by decide, by decide, by decide⟩)

/-- C7: the state-store load is total and fails soft: a missing state file
yields the empty mapping, and contents that fail to parse yield the empty
mapping as well. -/
theorem readTimestamps_fails_soft (parse : String → Option Ledger) :
    readTimestamps parse none = [] ∧
      ∀ s, parse s = none → readTimestamps parse (some s) = [] := by
  refine ⟨rfl, fun s h => ?_⟩
  simp only [readTimestamps, h]

/-- Witness for `readTimestamps_fails_soft`: a parser that rejects
everything (every input is corrupt). -/
theorem readTimestamps_fails_soft_witness :
    readTimestamps (fun _ => none) none = [] ∧
      readTimestamps (fun _ => none) (some "not json") = [] :=
  ⟨(readTimestamps_fails_soft (fun _ => none)).1,
    (readTimestamps_fails_soft (fun _ => none)).2 "not json" rfl⟩

/-- C10: a ledger entry whose project is not among the discovered projects
of the run survives the run unchanged — stale entries are preserved,
never pruned. -/
theorem stale_entries_preserved (env : Env) (projects : List String)
    (l : Ledger) (q v : String)
    (hq : q ∉ projects) (hv : lookup l q = some v) :
    lookup (runProjects env projects l).ledger q = some v := by
  rw [runProjects_frame env projects l q hq]
  exact hv

/-- Witness for `stale_entries_preserved`: `old-proj` has an entry but is
not discovered, and its entry survives a run that screenshots `proj-a`. -/
theorem stale_entries_preserved_witness :
    lookup (runProjects envW ["proj-a"]
        [("old-proj", "2020-01-01T00:00:00Z")]).ledger "old-proj" =
      some "2020-01-01T00:00:00Z" :=
  stale_entries_preserved envW ["proj-a"] [("old-proj", "2020-01-01T00:00:00Z")]
    "old-proj" "2020-01-01T00:00:00Z" (by decide) (by decide)

/-! ## Discovery (C8) and metadata coercion (C9) -/

/-- The showcase check of `getProjectFolders` (lines 65-68) holds exactly
when `assets` exists and lists `Showcase.png` or `Showcase.webp`. -/
theorem showcase_check_iff (rfs : RootFs) (name : String) :
    (if !(rfs.assetsExists name) then false
      else (rfs.assetsFiles name).any fun f =>
        f = "Showcase.png" || f = "Showcase.webp") = true ↔
      rfs.assetsExists name = true ∧
        ∃ f ∈ rfs.assetsFiles name, f = "Showcase.png" ∨ f = "Showcase.webp" := by
  by_cases ha : rfs.assetsExists name <;>
    simp [ha, List.any_eq_true]

/-- A root filesystem with a hidden `.git` directory, `proj-a` holding
`assets/Showcase.png`, `proj-b` holding only `assets/other.png`, and a
plain file. -/
def exampleFs : RootFs where
  entries := [⟨".git", true⟩, ⟨"proj-a", true⟩, ⟨"proj-b", true⟩, ⟨"README.md", false⟩]
  assetsExists := fun n => n = "proj-a" || n = "proj-b"
  assetsFiles := fun n =>
    if n = "proj-a" then ["Showcase.png"]
    else if n = "proj-b" then ["other.png"]
    else []

/-- C8: discovery keeps a root entry iff it is a directory, not
dot-prefixed, with an `assets` sub-directory listing a file named exactly
`Showcase.png` or `Showcase.webp`; on the example root only `proj-a`
survives (`.git` and `proj-b` are excluded). -/
theorem discovery_keeps_exactly_showcase_dirs :
    (∀ (rfs : RootFs) (name : String),
      name ∈ getProjectFolders rfs ↔
        (∃ e ∈ rfs.entries, e.name = name ∧ e.isDirectory = true) ∧
          startsWithDot name = false ∧
          rfs.assetsExists name = true ∧
          ∃ f ∈ rfs.assetsFiles name, f = "Showcase.png" ∨ f = "Showcase.webp") ∧
      getProjectFolders exampleFs = ["proj-a"] := by
  refine ⟨fun rfs name => ?_, by decide⟩
  unfold getProjectFolders
  simp only [List.mem_filter, List.mem_map]
  constructor
  · rintro ⟨⟨e, he, hname⟩, hq⟩
    obtain ⟨hent, hcond⟩ := he
    simp only [Bool.and_eq_true, Bool.not_eq_true'] at hcond
    subst hname
    exact ⟨⟨e, hent, rfl, hcond.1⟩, hcond.2,
      (showcase_check_iff rfs e.name).mp hq⟩
  · rintro ⟨⟨e, hent, hname, hdir⟩, hdot, hrest⟩
    subst hname
    refine ⟨⟨e, ⟨hent, by simp [hdir, hdot]⟩, rfl⟩,
      (showcase_check_iff rfs e.name).mpr hrest⟩

theorem jsOrNull_eq_none (x : Option String) :
    jsOrNull x = none ↔ x = none ∨ x = some "" := by
  cases x with
  | none => simp [jsOrNull]
  | some s =>
    simp only [jsOrNull]
    by_cases h : s = ""
    · subst h
      simp [String.isEmpty_iff]
    · simp [h, String.isEmpty_iff]

/-- `x || null` can never produce the empty string: the value `getRepoInfo`
returns for either field is null or a non-empty string.  This is the fact
recorded as the `fetch_coerced` field of `Env`. -/
theorem jsOrNull_ne_some_empty (x : Option String) : jsOrNull x ≠ some "" := by
  cases x with
  | none => simp [jsOrNull]
  | some s =>
    simp only [jsOrNull]
    by_cases h : s = ""
    · subst h
      simp [String.isEmpty_iff]
    · simp [h, String.isEmpty_iff]

theorem getRepoInfo_never_empty (result : ApiResult) :
    (getRepoInfo result).homepageUrl ≠ some "" ∧
      (getRepoInfo result).committedDate ≠ some "" :=
  ⟨jsOrNull_ne_some_empty _, jsOrNull_ne_some_empty _⟩

/-- C9: `getRepoInfo` returns null for a field not only when the response
chain is absent but for every falsy value — in particular a configured
homepage that is the empty string comes back as null, and likewise an
empty-string committed date. -/
theorem getRepoInfo_coerces_falsy_to_null :
    (∀ result : ApiResult,
      ((getRepoInfo result).homepageUrl = none ↔
        (result.repository.bind fun r => r.homepageUrl) = none ∨
          (result.repository.bind fun r => r.homepageUrl) = some "") ∧
      ((getRepoInfo result).committedDate = none ↔
        (result.repository.bind fun r =>
          r.defaultBranchRef.bind fun b => b.target.bind fun t =>
            t.committedDate) = none ∨
          (result.repository.bind fun r =>
            r.defaultBranchRef.bind fun b => b.target.bind fun t =>
              t.committedDate) = some "")) ∧
      (getRepoInfo
          ⟨some ⟨some "", some ⟨some ⟨some "2024-06-01T00:00:00Z"⟩⟩⟩⟩).homepageUrl =
        none ∧
      (getRepoInfo
          ⟨some ⟨some "https://example.com", some ⟨some ⟨some ""⟩⟩⟩⟩).committedDate =
        none :=
  ⟨fun _ => ⟨jsOrNull_eq_none _, jsOrNull_eq_none _⟩, rfl, rfl⟩

/-! ## Idempotence (C3)

The claim as stated is false on the code: when a capture throws, the
ledger entry is deliberately left stale so the project is retried, hence
a second identical run repeats the capture.  Once every capture of the
first run succeeds (and the fetched commit dates parse), the second run
is a genuine no-op.  The argument: after the first run every discovered
project is `goodAt` — its ledger entry already answers the fetch — and a
run over `goodAt` projects changes nothing. -/

/-- Exhaustive description of the five outcomes of the loop body. -/
theorem processInfo_cases (env : Env) (l : Ledger) (p : String) (info : RepoInfo) :
    (falsy info.committedDate = true ∧ processInfo env l p info = ⟨l, [], 0, 0⟩) ∨
    (falsy info.committedDate = false ∧
      upToDate env l p (info.committedDate.getD "") = true ∧
      processInfo env l p info = ⟨l, [], 0, 0⟩) ∨
    (falsy info.committedDate = false ∧
      upToDate env l p (info.committedDate.getD "") = false ∧
      falsy info.homepageUrl = true ∧
      processInfo env l p info =
        ⟨setKey l p (info.committedDate.getD ""), [], 0, 1⟩) ∨
    (falsy info.committedDate = false ∧
      upToDate env l p (info.committedDate.getD "") = false ∧
      falsy info.homepageUrl = false ∧
      env.captureOk (info.homepageUrl.getD "") (env.showcase p) = true ∧
      processInfo env l p info =
        ⟨setKey l p (info.committedDate.getD ""),
          [(info.homepageUrl.getD "", env.showcase p)], 1, 0⟩) ∨
    (falsy info.committedDate = false ∧
      upToDate env l p (info.committedDate.getD "") = false ∧
      falsy info.homepageUrl = false ∧
      env.captureOk (info.homepageUrl.getD "") (env.showcase p) = false ∧
      processInfo env l p info =
        ⟨l, [(info.homepageUrl.getD "", env.showcase p)], 0, 0⟩) := by
  by_cases h₁ : falsy info.committedDate
  · exact Or.inl ⟨h₁, by simp [processInfo, h₁]⟩
  · have h₁' : falsy info.committedDate = false := Bool.eq_false_iff.mpr h₁
    by_cases h₂ : upToDate env l p (info.committedDate.getD "")
    · exact Or.inr (Or.inl ⟨h₁', h₂, by simp [processInfo, h₁, h₂]⟩)
    · have h₂' : upToDate env l p (info.committedDate.getD "") = false :=
        Bool.eq_false_iff.mpr h₂
      by_cases h₃ : falsy info.homepageUrl
      · exact Or.inr (Or.inr (Or.inl ⟨h₁', h₂', h₃,
          by simp [processInfo, h₁, h₂, h₃]⟩))
      · have h₃' : falsy info.homepageUrl = false := Bool.eq_false_iff.mpr h₃
        by_cases h₄ : env.captureOk (info.homepageUrl.getD "") (env.showcase p)
        · exact Or.inr (Or.inr (Or.inr (Or.inl ⟨h₁', h₂', h₃', h₄,
            by simp [processInfo, h₁, h₂, h₃, h₄]⟩)))
        · have h₄' : env.captureOk (info.homepageUrl.getD "") (env.showcase p) = false :=
            Bool.eq_false_iff.mpr h₄
          exact Or.inr (Or.inr (Or.inr (Or.inr ⟨h₁', h₂', h₃', h₄',
            by simp [processInfo, h₁, h₂, h₃, h₄]⟩)))

/-- A truthy committed date is `some` of its own `getD`. -/
theorem committedDate_of_not_falsy (info : RepoInfo)
    (h : falsy info.committedDate = false) :
    info.committedDate = some (info.committedDate.getD "") := by
  cases hcd : info.committedDate with
  | none => rw [hcd] at h; exact absurd h (by simp [falsy])
  | some cd => simp

theorem dateVal_isSome_of_parses (env : Env) (p : String) (info : RepoInfo)
    (cd : String)
    (hparse : fetchDateParses env p = true)
    (hf : env.fetch p = .ok info)
    (hcd : info.committedDate = some cd) :
    ∃ tc, env.dateVal cd = some tc := by
  unfold fetchDateParses at hparse
  rw [hf] at hparse
  simp only [hcd] at hparse
  exact Option.isSome_iff_exists.mp hparse

/-- The ledger entry of `p` already answers what `fetch` will say:
re-processing `p` will mutate nothing and capture nothing. -/
def goodAt (env : Env) (l : Ledger) (p : String) : Prop :=
  ∀ info, env.fetch p = .ok info → falsy info.committedDate = false →
    upToDate env l p (info.committedDate.getD "") = true ∨
      (falsy info.homepageUrl = true ∧
        lookup l p = some (info.committedDate.getD ""))

theorem processProject_of_goodAt (env : Env) (l : Ledger) (p : String)
    (hg : goodAt env l p) :
    (processProject env l p).captures = [] ∧
      (processProject env l p).ledger = l := by
  cases hf : env.fetch p with
  | error e => rw [processProject_error env l p e hf]; exact ⟨rfl, rfl⟩
  | ok info =>
    rw [processProject_ok env l p info hf]
    rcases processInfo_cases env l p info with
      ⟨h₁, heq⟩ | ⟨h₁, h₂, heq⟩ | ⟨h₁, h₂, h₃, heq⟩ |
      ⟨h₁, h₂, h₃, h₄, heq⟩ | ⟨h₁, h₂, h₃, h₄, heq⟩
    · rw [heq]; exact ⟨rfl, rfl⟩
    · rw [heq]; exact ⟨rfl, rfl⟩
    · rcases hg info hf h₁ with hup | ⟨_, hlook⟩
      · rw [hup] at h₂; exact absurd h₂ (by simp)
      · rw [heq]
        exact ⟨rfl, setKey_lookup_eq l p _ hlook⟩
    · rcases hg info hf h₁ with hup | ⟨hurlf, _⟩
      · rw [hup] at h₂; exact absurd h₂ (by simp)
      · rw [hurlf] at h₃; exact absurd h₃ (by simp)
    · rcases hg info hf h₁ with hup | ⟨hurlf, _⟩
      · rw [hup] at h₂; exact absurd h₂ (by simp)
      · rw [hurlf] at h₃; exact absurd h₃ (by simp)

theorem upToDate_congr (env : Env) (l l' : Ledger) (p cd : String)
    (h : lookup l' p = lookup l p) :
    upToDate env l' p cd = upToDate env l p cd := by
  unfold upToDate
  rw [h]

theorem goodAt_congr (env : Env) (l l' : Ledger) (p : String)
    (h : lookup l' p = lookup l p) (hg : goodAt env l p) : goodAt env l' p := by
  intro info hf hcd
  rcases hg info hf hcd with hup | ⟨hu, hl⟩
  · left
    rw [upToDate_congr env l l' p _ h]
    exact hup
  · right
    exact ⟨hu, h ▸ hl⟩

theorem goodAt_preserved (env : Env) (l : Ledger) (p q : String)
    (hg : goodAt env l p) : goodAt env (processProject env l q).ledger p := by
  by_cases hpq : q = p
  · subst hpq
    rw [(processProject_of_goodAt env l q hg).2]
    exact hg
  · exact goodAt_congr env l _ p (processProject_frame env l q p hpq) hg

theorem goodAt_run_preserved (env : Env) (qs : List String) (l : Ledger)
    (p : String) (hg : goodAt env l p) :
    goodAt env (runProjects env qs l).ledger p := by
  induction qs generalizing l with
  | nil => exact hg
  | cons q qs ih =>
    simp only [runProjects]
    exact ih _ (goodAt_preserved env l p q hg)

/-- Processing `p` with a parsing commit date and a successful capture
leaves the ledger `goodAt p`. -/
theorem goodAt_after_process (env : Env) (l : Ledger) (p : String)
    (hcap : ∀ c ∈ (processProject env l p).captures, env.captureOk c.1 c.2 = true)
    (hparse : fetchDateParses env p = true) :
    goodAt env (processProject env l p).ledger p := by
  cases hf0 : env.fetch p with
  | error e =>
    intro info hf _
    rw [hf0] at hf
    exact Except.noConfusion hf
  | ok info0 =>
    rw [processProject_ok env l p info0 hf0] at hcap ⊢
    intro info hf hcd
    rw [hf0] at hf
    injection hf with hf
    subst hf
    rcases processInfo_cases env l p info0 with
      ⟨h₁, heq⟩ | ⟨h₁, h₂, heq⟩ | ⟨h₁, h₂, h₃, heq⟩ |
      ⟨h₁, h₂, h₃, h₄, heq⟩ | ⟨h₁, h₂, h₃, h₄, heq⟩
    · rw [h₁] at hcd; exact absurd hcd (by simp)
    · rw [heq]; left; exact h₂
    · rw [heq]
      right
      exact ⟨h₃, lookup_setKey_self l p _⟩
    · rw [heq]
      left
      have hsome := committedDate_of_not_falsy info0 hcd
      obtain ⟨tc, htc⟩ :=
        dateVal_isSome_of_parses env p info0 _ hparse hf0 hsome
      have hfal : falsy (some (info0.committedDate.getD "")) = false := by
        rw [← hsome]; exact hcd
      unfold upToDate
      rw [lookup_setKey_self]
      simp [hfal, jsLe, htc]
    · rw [heq] at hcap
      have hmem := hcap (info0.homepageUrl.getD "", env.showcase p) (by simp)
      rw [h₄] at hmem
      exact absurd hmem (by simp)

/-- After a run whose captures all succeeded and whose fetched dates all
parse, every discovered project is `goodAt` in the final ledger. -/
theorem goodAt_after_run (env : Env) (projects : List String) (l : Ledger)
    (hcap : ∀ c ∈ (runProjects env projects l).captures,
      env.captureOk c.1 c.2 = true)
    (hparse : ∀ p ∈ projects, fetchDateParses env p = true) :
    ∀ p ∈ projects, goodAt env (runProjects env projects l).ledger p := by
  induction projects generalizing l with
  | nil =>
    intro p hp
    exact absurd hp (by simp)
  | cons q qs ih =>
    have hcap' : ∀ c ∈ (processProject env l q).captures,
        env.captureOk c.1 c.2 = true := by
      intro c hc
      apply hcap
      simp only [runProjects]
      exact List.mem_append.mpr (Or.inl hc)
    have hcaprest : ∀ c ∈ (runProjects env qs (processProject env l q).ledger).captures,
        env.captureOk c.1 c.2 = true := by
      intro c hc
      apply hcap
      simp only [runProjects]
      exact List.mem_append.mpr (Or.inr hc)
    intro p hp
    rcases List.mem_cons.mp hp with hpq | hpqs
    · subst hpq
      have h1 := goodAt_after_process env l p hcap' (hparse p hp)
      simp only [runProjects]
      exact goodAt_run_preserved env qs _ p h1
    · have h2 := ih _ hcaprest
        (fun r hr => hparse r (List.mem_cons_of_mem _ hr)) p hpqs
      simp only [runProjects]
      exact h2

/-- A run over projects that are all `goodAt` captures nothing and leaves
the ledger exactly as it was. -/
theorem run_noop_of_goodAt (env : Env) (projects : List String) (l : Ledger)
    (hg : ∀ p ∈ projects, goodAt env l p) :
    (runProjects env projects l).captures = [] ∧
      (runProjects env projects l).ledger = l := by
  induction projects with
  | nil => exact ⟨rfl, rfl⟩
  | cons q qs ih =>
    have h1 := processProject_of_goodAt env l q (hg q (by simp))
    have h2 := ih fun p hp => hg p (List.mem_cons_of_mem _ hp)
    simp only [runProjects, h1.1, h1.2, h2.1, h2.2]
    simp

/-- C3 fails as stated: with a deterministic environment whose capture
always throws, the first run invokes the capture and (by design) leaves
the ledger stale, so the second identical run invokes the very same
capture again — not zero captures. -/
theorem second_run_captures_again :
    (runProjects envCapFail ["proj-a"]
        (runProjects envCapFail ["proj-a"] []).ledger).captures ≠ [] := by
  decide

/-- C3 (amended): if every capture invoked during the first run succeeds
and every fetched commit date parses as a date-time, a second run with
the same environment performs zero captures and leaves the final ledger
of the first run unchanged. -/
theorem second_run_is_noop (env : Env) (projects : List String) (l : Ledger)
    (hcap : ∀ c ∈ (runProjects env projects l).captures,
      env.captureOk c.1 c.2 = true)
    (hparse : ∀ p ∈ projects, fetchDateParses env p = true) :
    (runProjects env projects (runProjects env projects l).ledger).captures = [] ∧
      (runProjects env projects (runProjects env projects l).ledger).ledger =
        (runProjects env projects l).ledger :=
  run_noop_of_goodAt env projects _ (goodAt_after_run env projects l hcap hparse)

/-- Witness for `second_run_is_noop`: with the all-captures-succeed
environment the second run is a no-op. -/
theorem second_run_is_noop_witness :
    (runProjects envW ["proj-a"] (runProjects envW ["proj-a"] []).ledger).captures =
        [] ∧
      (runProjects envW ["proj-a"] (runProjects envW ["proj-a"] []).ledger).ledger =
        (runProjects envW ["proj-a"] []).ledger :=
  second_run_is_noop envW ["proj-a"] [] (by decide) (by decide)

end Portfolio
